import Mathlib

/-!
Shallow embedding of the in-process sliding-window rate limiter sketched in
the advanced-techniques guide (the `RateLimit` class of
`app/utils/rate-limit.server.ts`).

Timestamps are milliseconds since epoch, modelled as `Int`; `Date.now()` is
externalised as an explicit `now` argument. The `Map<string, number[]>` of
per-key timestamp arrays is modelled as a total function
`String → Option (List Int)`, where `none` means the key is absent from the
map. JS `||` fallbacks (which treat `undefined`, `null` and the empty string
as falsy) are modelled explicitly.
-/

/-- Request metadata: the two headers the default key extraction reads.
A header is `none` when absent; a present header may carry the empty string. -/
structure Request where
  xForwardedFor : Option String
  xRealIp : Option String

/-- JS truthiness fallback `a || b` where `a` comes from `headers.get(...)`:
both `null` (absent header) and the empty string are falsy. -/
def jsOrString (a : Option String) (b : String) : String :=
  match a with
  | none => b
  | some s => if s = "" then b else s

/-- `RateLimit.getIP`:
`request.headers.get("x-forwarded-for") || request.headers.get("x-real-ip") || "unknown"`. -/
def getIP (req : Request) : String :=
  jsOrString req.xForwardedFor (jsOrString req.xRealIp ("unknown"))

/-- `RateLimitOptions`: `windowMs`, `maxRequests`, optional `keyGenerator`. -/
structure RateLimitOptions where
  windowMs : Int
  maxRequests : Int
  keyGenerator : Option (Request → String) := none

/-- The key computation of `check`:
`this.options.keyGenerator?.(request) || this.getIP(request)`.
The optional call is `undefined` when no generator is configured, and `||`
treats both `undefined` and the empty string as falsy. -/
def computeKey (kg : Option (Request → String)) (req : Request) : String :=
  match kg with
  | none => getIP req
  | some g => if g req = "" then getIP req else g req

/-- The `private requests = new Map<string, number[]>()` field. -/
abbrev RequestMap := String → Option (List Int)

/-- The freshly constructed, empty map. -/
def emptyRequests : RequestMap := fun _ => none

/-- `Map.set(key, v)`. -/
def mapSet (m : RequestMap) (key : String) (v : List Int) : RequestMap :=
  fun k => if k = key then some v else m k

/-- The pruning step of `check`:
`userRequests.filter((time) => time > windowStart)`. -/
def validRequests (userRequests : List Int) (windowStart : Int) : List Int :=
  userRequests.filter (fun time => decide (windowStart < time))

/-- The body of `RateLimit.check` once the client key has been computed.
`now` replaces `Date.now()`. Mirrors the source line by line: compute
`windowStart`; insert an empty array if the key is absent; read the stored
array; prune it; deny without writing when the pruned length has reached
`maxRequests`; otherwise push `now`, store the result and admit. -/
def checkKey (opts : RateLimitOptions) (m : RequestMap) (key : String) (now : Int) :
    Bool × RequestMap :=
  let windowStart := now - opts.windowMs
  let m1 := if (m key).isSome then m else mapSet m key []
  let userRequests := (m1 key).getD []
  let valid := validRequests userRequests windowStart
  if opts.maxRequests ≤ (valid.length : Int) then
    (false, m1)
  else
    (true, mapSet m1 key (valid ++ [now]))

/-- The `RateLimit` class: the configured options and the mutable map. -/
structure RateLimit where
  options : RateLimitOptions
  requests : RequestMap

/-- The constructor `constructor(private options: RateLimitOptions) {}`:
it stores the options and starts with an empty map; its body is empty. -/
def RateLimit.new (options : RateLimitOptions) : RateLimit :=
  { options := options, requests := emptyRequests }

/-- The `check` method: compute the key from the request, then run the body. -/
def RateLimit.check (rl : RateLimit) (req : Request) (now : Int) : Bool × RateLimit :=
  let key := computeKey rl.options.keyGenerator req
  let res := checkKey rl.options rl.requests key now
  (res.1, { rl with requests := res.2 })

/-- Run a sequence of checks for a single key at the given times, collecting
the boolean results in order. -/
def runChecks (opts : RateLimitOptions) (key : String) : List Int → RequestMap → List Bool
  | [], _ => []
  | t :: ts, m =>
    let res := checkKey opts m key t
    res.1 :: runChecks opts key ts res.2

/-- The timestamps of the admitted (`true`) checks in a single-key run. -/
def admittedTimes (opts : RateLimitOptions) (key : String) : List Int → RequestMap → List Int
  | [], _ => []
  | t :: ts, m =>
    let res := checkKey opts m key t
    (if res.1 then [t] else []) ++ admittedTimes opts key ts res.2

/-- Run a sequence of (key, time) checks, returning the final map. -/
def runState (opts : RateLimitOptions) : List (String × Int) → RequestMap → RequestMap
  | [], m => m
  | c :: cs, m => runState opts cs (checkKey opts m c.1 c.2).2

/-- Membership test for a trailing window of length `windowMs` ending at `T`. -/
def inWindow (windowMs T a : Int) : Bool :=
  decide (T - windowMs < a) && decide (a ≤ T)

/-! ### Basic lemmas about the map operations and `checkKey` -/

theorem mapSet_same (m : RequestMap) (key : String) (v : List Int) :
    mapSet m key v key = some v := by
  simp [mapSet]

theorem mapSet_other (m : RequestMap) (key k : String) (v : List Int) (h : k ≠ key) :
    mapSet m key v k = m k := by
  simp [mapSet, h]

theorem init_key_getD (m : RequestMap) (key : String) :
    ((if (m key).isSome then m else mapSet m key []) key).getD [] = (m key).getD [] := by
  cases h : m key <;> simp [h, mapSet]

theorem checkKey_deny (opts : RateLimitOptions) (m : RequestMap) (key : String) (now : Int)
    (h : opts.maxRequests ≤
      ((validRequests ((m key).getD []) (now - opts.windowMs)).length : Int)) :
    checkKey opts m key now = (false, if (m key).isSome then m else mapSet m key []) := by
  simp only [checkKey, init_key_getD]
  rw [if_pos h]

theorem checkKey_allow (opts : RateLimitOptions) (m : RequestMap) (key : String) (now : Int)
    (h : ¬ opts.maxRequests ≤
      ((validRequests ((m key).getD []) (now - opts.windowMs)).length : Int)) :
    checkKey opts m key now =
      (true, mapSet (if (m key).isSome then m else mapSet m key []) key
        (validRequests ((m key).getD []) (now - opts.windowMs) ++ [now])) := by
  simp only [checkKey, init_key_getD]
  rw [if_neg h]

theorem checkKey_snd_other (opts : RateLimitOptions) (m : RequestMap) (key : String)
    (now : Int) (k : String) (h : k ≠ key) :
    (checkKey opts m key now).2 k = m k := by
  by_cases hc : opts.maxRequests ≤
      ((validRequests ((m key).getD []) (now - opts.windowMs)).length : Int)
  · rw [checkKey_deny opts m key now hc]
    cases hm : m key <;> simp [hm, mapSet, h]
  · rw [checkKey_allow opts m key now hc]
    cases hm : m key <;> simp [hm, mapSet, h]

theorem jsOrString_ne_empty (a : Option String) (b : String) (hb : b ≠ "") :
    jsOrString a b ≠ "" := by
  cases a with
  | none => simpa [jsOrString] using hb
  | some s => by_cases hs : s = "" <;> simp [jsOrString, hs, hb]

theorem getIP_ne_empty (req : Request) : getIP req ≠ "" := by
  exact jsOrString_ne_empty _ _ (jsOrString_ne_empty _ _ (by decide))

/-! ### Claim theorems: constructor, scenario, boundary, key extraction -/

/-- C3 counterexample: constructing a limiter with `maxRequests = 0` (not a
positive number) does not fail: it produces a limiter instance that stores the
configuration verbatim and answers `check` calls (here with a denial). -/
theorem constructor_no_validation_cex :
    (RateLimit.new { windowMs := 1000, maxRequests := 0 }).options =
      { windowMs := 1000, maxRequests := 0 } ∧
    (RateLimit.new { windowMs := 1000, maxRequests := 0 }).requests ("k") = none ∧
    ((RateLimit.new { windowMs := 1000, maxRequests := 0 }).check
      { xForwardedFor := none, xRealIp := none } 0).1 = false := by
  refine ⟨rfl, rfl, by decide⟩

/-- C3 amended: the constructor performs no validation at all; for every
configuration, including a zero or negative `windowMs` or `maxRequests`, it
returns an instance holding that configuration and an empty request map. -/
theorem constructor_total (opts : RateLimitOptions) :
    RateLimit.new opts = { options := opts, requests := emptyRequests } := rfl

/-- C4: with `windowMs = 1000` and `maxRequests = 3`, five checks for key
`"k"` at times 0, 100, 200, 900, 1001 return true, true, true, false, true. -/
theorem scenario_boundary_run :
    runChecks { windowMs := 1000, maxRequests := 3 } ("k") [0, 100, 200, 900, 1001]
      emptyRequests = [true, true, true, false, true] := by
  decide

/-- C5: the pruning filter keeps exactly the stored timestamps strictly greater
than `windowStart`; in particular a timestamp exactly equal to `windowStart`
(exactly `windowMs` old) is excluded as expired. -/
theorem boundary_exclusion (l : List Int) (now windowMs : Int) :
    ((now - windowMs) ∉ validRequests l (now - windowMs)) ∧
    (∀ a : Int, a ∈ validRequests l (now - windowMs) ↔ a ∈ l ∧ now - windowMs < a) := by
  constructor
  · intro hmem
    have h := (List.mem_filter.mp hmem).2
    simp at h
  · intro a
    simp [validRequests, List.mem_filter]

/-- C6 counterexample: with no key generator, a present but empty
forwarded-address header is not used as the key: the key falls back to the
real-address header value, which differs from the forwarded header value. -/
theorem default_key_empty_header_cex :
    computeKey none { xForwardedFor := some (""), xRealIp := some ("10.0.0.9") } =
      "10.0.0.9" ∧ ("10.0.0.9" : String) ≠ "" := by
  refine ⟨rfl, by decide⟩

/-- C6 amended: with no key generator the client key is the forwarded-address
header value when that header is present with a nonempty value; otherwise the
real-address header value when present and nonempty; otherwise the literal
string `"unknown"` (JS truthiness treats empty header values like absent ones). -/
theorem default_key_extraction (req : Request) (s : String) :
    (req.xForwardedFor = some s → s ≠ "" → computeKey none req = s) ∧
    ((req.xForwardedFor = none ∨ req.xForwardedFor = some ("")) →
      req.xRealIp = some s → s ≠ "" → computeKey none req = s) ∧
    ((req.xForwardedFor = none ∨ req.xForwardedFor = some ("")) →
      (req.xRealIp = none ∨ req.xRealIp = some ("")) →
      computeKey none req = "unknown") := by
  refine ⟨?_, ?_, ?_⟩
  · intro hf hs
    simp [computeKey, getIP, jsOrString, hf, hs]
  · intro hf hr hs
    rcases hf with hf | hf <;> simp [computeKey, getIP, jsOrString, hf, hr, hs]
  · intro hf hr
    rcases hf with hf | hf <;> rcases hr with hr | hr <;>
      simp [computeKey, getIP, jsOrString, hf, hr]

/-- C6 witness: a nonempty forwarded-address header is used as the key. -/
theorem default_key_extraction_witness :
    computeKey none { xForwardedFor := some ("203.0.113.7"), xRealIp := none } =
      "203.0.113.7" :=
  (default_key_extraction { xForwardedFor := some ("203.0.113.7"), xRealIp := none }
    ("203.0.113.7")).1 rfl (by decide)

/-- C10: if the configured key generator returns the empty string for a
request, the empty string is not used as the client key: the key falls back to
header-based extraction, whose result is never the empty string. -/
theorem empty_key_falls_back (g : Request → String) (req : Request) (h : g req = "") :
    computeKey (some g) req = getIP req ∧ getIP req ≠ "" := by
  constructor
  · simp [computeKey, h]
  · exact getIP_ne_empty req

/-- C10 witness: a generator returning the empty string on a headerless request
falls back to the default extraction, which yields a nonempty key. -/
theorem empty_key_falls_back_witness :
    computeKey (some fun _ => "") { xForwardedFor := none, xRealIp := none } =
      getIP { xForwardedFor := none, xRealIp := none } ∧
    getIP { xForwardedFor := none, xRealIp := none } ≠ "" :=
  empty_key_falls_back (fun _ => "") { xForwardedFor := none, xRealIp := none } rfl

/-- C8: checking is deterministic: two limiters with identical configuration
fed identical timestamped request sequences for the same key produce identical
admit/deny sequences. -/
theorem check_deterministic (o1 o2 : RateLimitOptions) (k1 k2 : String)
    (ts1 ts2 : List Int) (ho : o1 = o2) (hk : k1 = k2) (ht : ts1 = ts2) :
    runChecks o1 k1 ts1 emptyRequests = runChecks o2 k2 ts2 emptyRequests := by
  subst ho
  subst hk
  subst ht
  rfl

/-- C8 witness: a concrete pair of identical runs. -/
theorem check_deterministic_witness :
    runChecks { windowMs := 1000, maxRequests := 3 } ("a") [0, 1, 2] emptyRequests =
      runChecks { windowMs := 1000, maxRequests := 3 } ("a") [0, 1, 2] emptyRequests :=
  check_deterministic { windowMs := 1000, maxRequests := 3 }
    { windowMs := 1000, maxRequests := 3 } ("a") ("a") [0, 1, 2] [0, 1, 2] rfl rfl rfl

/-- C7: a check for one key leaves the stored entry of every other key
unchanged, and the admit/deny result for a key depends only on that key's
stored entry (two maps agreeing on the key give the same result). -/
theorem key_independence (opts : RateLimitOptions) (m1 m2 : RequestMap)
    (kA kB : String) (nowA nowB : Int) (hk : kB ≠ kA) (hm : m1 kB = m2 kB) :
    (checkKey opts m1 kA nowA).2 kB = m1 kB ∧
    (checkKey opts m1 kB nowB).1 = (checkKey opts m2 kB nowB).1 := by
  constructor
  · exact checkKey_snd_other opts m1 kA nowA kB hk
  · by_cases hc : opts.maxRequests ≤
        ((validRequests ((m1 kB).getD []) (nowB - opts.windowMs)).length : Int)
    · have hc2 := hc
      rw [hm] at hc2
      rw [checkKey_deny opts m1 kB nowB hc, checkKey_deny opts m2 kB nowB hc2]
    · have hc2 := hc
      rw [hm] at hc2
      rw [checkKey_allow opts m1 kB nowB hc, checkKey_allow opts m2 kB nowB hc2]

/-- C7 witness: exhausting key `"a"` does not touch key `"b"`. -/
theorem key_independence_witness :
    (checkKey { windowMs := 1000, maxRequests := 1 } emptyRequests ("a") 0).2 ("b") =
      emptyRequests ("b") ∧
    (checkKey { windowMs := 1000, maxRequests := 1 } emptyRequests ("b") 0).1 =
      (checkKey { windowMs := 1000, maxRequests := 1 } emptyRequests ("b") 0).1 :=
  key_independence { windowMs := 1000, maxRequests := 1 } emptyRequests emptyRequests
    ("a") ("b") 0 0 (by decide) rfl

/-! ### The stored-length invariant and the pruning behaviour of `check` -/

/-- Every stored, pruned-and-extended sequence in the map has length at most
`maxRequests` (absent keys count as empty). -/
def MapBounded (opts : RateLimitOptions) (m : RequestMap) : Prop :=
  ∀ k : String, ((((m k).getD []).length : Int)) ≤ opts.maxRequests

theorem checkKey_bounded (opts : RateLimitOptions) (m : RequestMap) (key : String)
    (now : Int) (hm : MapBounded opts m) :
    MapBounded opts (checkKey opts m key now).2 := by
  intro k
  by_cases hk : k = key
  · subst hk
    by_cases hc : opts.maxRequests ≤
        ((validRequests ((m k).getD []) (now - opts.windowMs)).length : Int)
    · rw [checkKey_deny opts m k now hc, init_key_getD]
      exact hm k
    · rw [checkKey_allow opts m k now hc]
      simp only [mapSet_same, Option.getD_some, List.length_append, List.length_cons,
        List.length_nil]
      have hlt : ((validRequests ((m k).getD []) (now - opts.windowMs)).length : Int) <
          opts.maxRequests := lt_of_not_le hc
      push_cast
      omega
  · rw [checkKey_snd_other opts m key now k hk]
    exact hm k

theorem runState_bounded (opts : RateLimitOptions) (calls : List (String × Int))
    (m : RequestMap) (hm : MapBounded opts m) :
    MapBounded opts (runState opts calls m) := by
  induction calls generalizing m with
  | nil => exact hm
  | cons c cs ih => exact ih _ (checkKey_bounded opts m c.1 c.2 hm)

theorem emptyRequests_bounded (opts : RateLimitOptions) (h0 : 0 ≤ opts.maxRequests) :
    MapBounded opts emptyRequests := by
  intro k
  simpa [emptyRequests] using h0

/-- On a bounded map, a denial forces the pruning filter to keep the whole
stored sequence: nothing in it is stale. -/
theorem validRequests_eq_of_deny (opts : RateLimitOptions) (L : List Int) (ws : Int)
    (hlen : (L.length : Int) ≤ opts.maxRequests)
    (hc : opts.maxRequests ≤ ((validRequests L ws).length : Int)) :
    validRequests L ws = L := by
  simp only [validRequests] at hc ⊢
  have hsub := List.filter_sublist (p := fun time => decide (ws < time)) L
  have h1 : (List.filter (fun time => decide (ws < time)) L).length ≤ L.length :=
    hsub.length_le
  have h2 : L.length ≤ (List.filter (fun time => decide (ws < time)) L).length := by
    exact_mod_cast le_trans hlen hc
  exact hsub.eq_of_length (Nat.le_antisymm h1 h2)

/-- C9: starting from the empty map, after any sequence of checks (any keys,
any times) every stored timestamp sequence has length at most `maxRequests`. -/
theorem stored_length_bound (opts : RateLimitOptions) (h0 : 0 ≤ opts.maxRequests)
    (calls : List (String × Int)) (k : String) :
    (((runState opts calls emptyRequests k).getD []).length : Int) ≤ opts.maxRequests :=
  runState_bounded opts calls emptyRequests (emptyRequests_bounded opts h0) k

/-- C9 witness: a concrete run stays within the bound. -/
theorem stored_length_bound_witness :
    (((runState { windowMs := 1000, maxRequests := 3 }
        [(("k"), 0), (("k"), 100), (("k"), 200), (("k"), 900), (("k"), 1001)]
        emptyRequests ("k")).getD []).length : Int) ≤ 3 :=
  stored_length_bound { windowMs := 1000, maxRequests := 3 } (by decide)
    [(("k"), 0), (("k"), 100), (("k"), 200), (("k"), 900), (("k"), 1001)] ("k")

/-- C2: on every check over a reachable map, the new stored sequence for the
key is exactly the pruned previous sequence, with `now` appended when and only
when the call admits; in particular after a denial no timestamp `≤ windowStart`
remains stored for that key. -/
theorem prune_on_every_check (opts : RateLimitOptions) (h0 : 0 ≤ opts.maxRequests)
    (calls : List (String × Int)) (key : String) (now : Int)
    (m : RequestMap) (hreach : m = runState opts calls emptyRequests) :
    (((checkKey opts m key now).2 key).getD [] =
      validRequests ((m key).getD []) (now - opts.windowMs) ++
        (if (checkKey opts m key now).1 then [now] else [])) ∧
    ((checkKey opts m key now).1 = false →
      ∀ a ∈ ((checkKey opts m key now).2 key).getD [], now - opts.windowMs < a) := by
  have hb : MapBounded opts m := by
    subst hreach
    exact runState_bounded opts calls emptyRequests (emptyRequests_bounded opts h0)
  by_cases hc : opts.maxRequests ≤
      ((validRequests ((m key).getD []) (now - opts.windowMs)).length : Int)
  · have heq := validRequests_eq_of_deny opts ((m key).getD []) (now - opts.windowMs)
      (hb key) hc
    rw [checkKey_deny opts m key now hc]
    constructor
    · simp only [init_key_getD, heq, if_neg, List.append_nil]
      rw [if_neg (by simp)]
      simp
    · intro _ a ha
      rw [init_key_getD, ← heq] at ha
      have h := (List.mem_filter.mp ha).2
      simpa using h
  · rw [checkKey_allow opts m key now hc]
    constructor
    · simp [mapSet_same]
    · intro hfalse
      simp at hfalse

/-- C2 witness: denial at time 900 after admits at 0, 100, 200 leaves the
stored sequence equal to its pruned form. -/
theorem prune_on_every_check_witness :
    ((checkKey { windowMs := 1000, maxRequests := 3 }
        (runState { windowMs := 1000, maxRequests := 3 }
          [(("k"), 0), (("k"), 100), (("k"), 200)] emptyRequests) ("k") 900).2
      ("k")).getD [] =
      validRequests ((runState { windowMs := 1000, maxRequests := 3 }
          [(("k"), 0), (("k"), 100), (("k"), 200)] emptyRequests ("k")).getD [])
        (900 - 1000) ++
        (if (checkKey { windowMs := 1000, maxRequests := 3 }
            (runState { windowMs := 1000, maxRequests := 3 }
              [(("k"), 0), (("k"), 100), (("k"), 200)] emptyRequests) ("k") 900).1
          then [900] else []) :=
  (prune_on_every_check { windowMs := 1000, maxRequests := 3 } (by decide)
    [(("k"), 0), (("k"), 100), (("k"), 200)] ("k") 900 _ rfl).1

/-! ### The admission bound (sliding-window property) -/

theorem length_filter_mono {p q : Int → Bool} (h : ∀ a : Int, p a = true → q a = true) :
    ∀ l : List Int, (l.filter p).length ≤ (l.filter q).length := by
  intro l
  induction l with
  | nil => simp
  | cons a l ih =>
    by_cases hp : p a = true
    · rw [List.filter_cons_of_pos hp, List.filter_cons_of_pos (h a hp)]
      simpa using ih
    · rw [List.filter_cons_of_neg (by simpa using hp)]
      cases hq : q a with
      | false => rw [List.filter_cons_of_neg (by simp [hq])]; exact ih
      | true => rw [List.filter_cons_of_pos hq]; exact le_trans ih (Nat.le_succ _)

/-- Shape of the stored sequence for a key in a single-key run: it is the list
of previously admitted timestamps, filtered at the threshold left behind by the
last admitting check (`lastAdmit - windowMs`). -/
def PrunedShape (opts : RateLimitOptions) (key : String) (m : RequestMap)
    (A : List Int) : Prop :=
  ∃ th : Int, (m key).getD [] = A.filter (fun a => decide (th < a)) ∧
    (A ≠ [] → ∀ u : Int, (∀ a ∈ A, a < u) → th ≤ u - opts.windowMs)

theorem admittedTimes_bound_aux (opts : RateLimitOptions) (key : String)
    (hW : 0 < opts.windowMs) :
    ∀ (ts : List Int) (m : RequestMap) (A : List Int),
      List.Pairwise (fun a b : Int => a < b) (A ++ ts) →
      PrunedShape opts key m A →
      (∀ T : Int,
        ((A.filter (inWindow opts.windowMs T)).length : Int) ≤ opts.maxRequests) →
      ∀ T : Int,
        (((A ++ admittedTimes opts key ts m).filter (inWindow opts.windowMs T)).length :
          Int) ≤ opts.maxRequests := by
  intro ts
  induction ts with
  | nil =>
    intro m A hpw hshape hB T
    simpa [admittedTimes] using hB T
  | cons t ts ih =>
    intro m A hpw hshape hB T
    obtain ⟨th, hLfilter, hth⟩ := hshape
    have hAt : ∀ a ∈ A, a < t :=
      fun a ha => (List.pairwise_append.mp hpw).2.2 a ha t (by simp)
    have hvalid : validRequests ((m key).getD []) (t - opts.windowMs) =
        A.filter (fun a => decide (t - opts.windowMs < a)) := by
      rcases eq_or_ne A [] with hA | hA
      · subst hA
        simp only [List.filter_nil] at hLfilter
        simp [hLfilter, validRequests]
      · have htht : th ≤ t - opts.windowMs := hth hA t hAt
        rw [hLfilter]
        simp only [validRequests]
        rw [List.filter_filter]
        refine List.filter_congr ?_
        intro a ha
        by_cases hwa : t - opts.windowMs < a
        · have h2 : th < a := lt_of_le_of_lt htht hwa
          simp [hwa, h2]
        · simp [hwa]
    by_cases hc : opts.maxRequests ≤
        ((validRequests ((m key).getD []) (t - opts.windowMs)).length : Int)
    · have hck := checkKey_deny opts m key t hc
      have hm2 : (((checkKey opts m key t).2) key).getD [] = (m key).getD [] := by
        rw [hck]
        exact init_key_getD m key
      have hgoal : A ++ admittedTimes opts key (t :: ts) m =
          A ++ admittedTimes opts key ts (checkKey opts m key t).2 := by
        simp [admittedTimes, hck]
      rw [hgoal]
      refine ih (checkKey opts m key t).2 A ?_ ?_ hB T
      · exact List.Pairwise.sublist
          (List.Sublist.append_left (List.sublist_cons_self t ts) A) hpw
      · exact ⟨th, by rw [hm2, hLfilter], hth⟩
    · have hck := checkKey_allow opts m key t hc
      have hm2 : (((checkKey opts m key t).2) key).getD [] =
          validRequests ((m key).getD []) (t - opts.windowMs) ++ [t] := by
        rw [hck]
        simp [mapSet_same]
      have hgoal : A ++ admittedTimes opts key (t :: ts) m =
          (A ++ [t]) ++ admittedTimes opts key ts (checkKey opts m key t).2 := by
        simp [admittedTimes, hck]
      rw [hgoal]
      refine ih (checkKey opts m key t).2 (A ++ [t]) ?_ ?_ ?_ T
      · have hre : (A ++ [t]) ++ ts = A ++ t :: ts := by simp
        rw [hre]
        exact hpw
      · refine ⟨t - opts.windowMs, ?_, ?_⟩
        · rw [hm2, hvalid, List.filter_append]
          have htt : decide (t - opts.windowMs < t) = true := by
            simp
            omega
          simp [List.filter_cons, htt, hW]
        · intro _ u hu
          have htu : t < u := hu t (by simp)
          omega
      · intro T2
        rw [List.filter_append]
        cases hin : inWindow opts.windowMs T2 t with
        | false =>
          simp only [List.filter_cons, hin, List.filter_nil, List.append_nil,
            Bool.false_eq_true, if_neg, ite_false]
          exact hB T2
        | true =>
          have h1 : (A.filter (inWindow opts.windowMs T2)).length ≤
              (A.filter (fun a => decide (t - opts.windowMs < a))).length := by
            refine length_filter_mono ?_ A
            intro a ha
            have hinp := hin
            simp only [inWindow, Bool.and_eq_true, decide_eq_true_eq] at ha hinp ⊢
            omega
          have h2 : ((A.filter (fun a => decide (t - opts.windowMs < a))).length : Int) <
              opts.maxRequests := by
            rw [← hvalid]
            exact lt_of_not_le hc
          have h3 : ((A.filter (inWindow opts.windowMs T2)).length : Int) ≤
              ((A.filter (fun a => decide (t - opts.windowMs < a))).length : Int) := by
            exact_mod_cast h1
          simp only [List.filter_cons, hin, List.filter_nil, if_pos, ite_true,
            List.length_append, List.length_cons, List.length_nil]
          push_cast
          omega

/-- C1: for a positive window and nonnegative budget, in any single-key run
with strictly increasing timestamps starting from the empty map, the number of
admitted (true) checks whose timestamps fall in any trailing window of length
`windowMs` never exceeds `maxRequests`. -/
theorem admission_bound (opts : RateLimitOptions) (key : String) (ts : List Int)
    (hW : 0 < opts.windowMs) (hM : 0 ≤ opts.maxRequests)
    (hts : List.Pairwise (fun a b : Int => a < b) ts) (T : Int) :
    (((admittedTimes opts key ts emptyRequests).filter
        (inWindow opts.windowMs T)).length : Int) ≤ opts.maxRequests := by
  have h := admittedTimes_bound_aux opts key hW ts emptyRequests []
    (by simpa using hts)
    ⟨0, by simp [emptyRequests], fun hne => absurd rfl hne⟩
    (by intro T2; simpa using hM) T
  simpa using h

/-- C1 witness: the boundary scenario run respects the bound in the window
ending at time 1001. -/
theorem admission_bound_witness :
    (((admittedTimes { windowMs := 1000, maxRequests := 3 } ("k")
        [0, 100, 200, 900, 1001] emptyRequests).filter
        (inWindow 1000 1001)).length : Int) ≤ 3 :=
  admission_bound { windowMs := 1000, maxRequests := 3 } ("k") [0, 100, 200, 900, 1001]
    (by decide) (by decide) (by decide) 1001
